import Mathlib

/-!
Verification of the `can` RBAC authorization package.

A shallow embedding of the data model of the package and operations, with
theorems about the decision engine (`Can`), the ability vocabulary, the
config compiler (`buildRole` / `Config`), and the request classifier
(`PermissionFromPath`).

Modelling conventions:
* Go strings are modelled as character lists (`GoStr`).  Go indexes and
  slices strings by byte; on ASCII data — which is all the data at issue
  here — byte-wise and character-wise operations coincide.
* Go `nil` maps and `nil` function values are modelled with `Option`.
* A Go runtime panic is modelled as `Option.none` in the result type of
  the function that panics.
* Go map iteration order is unspecified; a disk-format role is therefore
  modelled as a list of key/value entries in some iteration order.
-/

namespace CanRBAC

/-- Go strings, as character lists (byte-wise and character-wise operations
coincide on the ASCII data at issue). -/
abbrev GoStr := List Char

/-- The character list of a string literal. -/
def gostr (s : String) : GoStr := s.data

/-- The `Ability` enumeration of the source: four concrete operations,
the `All` and `Skip` control sentinels, and the `None` denial sentinel. -/
inductive Ability
  | Read
  | Create
  | Update
  | Delete
  | All
  | Skip
  | None
deriving DecidableEq

/-- Go `Ability.String()`: the canonical lowercase name of the six granted
abilities; every other value (in particular `None`) prints as "none". -/
def abilityString : Ability → GoStr
  | .All => gostr "all"
  | .Read => gostr "read"
  | .Create => gostr "create"
  | .Update => gostr "update"
  | .Delete => gostr "delete"
  | .Skip => gostr "skip"
  | .None => gostr "none"

/-- Go `strings.ToLower`, restricted to ASCII case mapping (the canonical
ability names compared against are all ASCII). -/
def strToLower (s : GoStr) : GoStr := s.map Char.toLower

/-- Go `StringToAbility`: lowercase the input and match it against the six
canonical names; anything else yields the denial sentinel `None`. -/
def StringToAbility (s : GoStr) : Ability :=
  if strToLower s = gostr "all" then .All
  else if strToLower s = gostr "read" then .Read
  else if strToLower s = gostr "create" then .Create
  else if strToLower s = gostr "update" then .Update
  else if strToLower s = gostr "delete" then .Delete
  else if strToLower s = gostr "skip" then .Skip
  else .None

/-- The `Permission` record: the granted ability set (Go `map[Ability]struct\x7b\x7d`)
plus the opaque resource tag. -/
structure Permission where
  Abilities : Finset Ability
  Resource : GoStr
deriving DecidableEq

/-- The `Role` type: a Go map from permission name to `Permission`, modelled by its
lookup function (`none` = key absent). -/
abbrev Role := GoStr → Option Permission

/-- The `context.Context` argument: an opaque value store.  It is passed to `Can` but the
default engine never reads it. -/
structure Context where
  values : List (GoStr × GoStr)

/-- Go `Can`: the decision engine.  `role = none` models a nil role map and
`compare = none` a nil predicate. -/
def Can (ctx : Context) (role : Option Role) (permission : GoStr) (ability : Ability)
    (compare : Option (Unit → Bool)) : Bool :=
  match role with
  | none => false
  | some rolemap =>
    match rolemap permission with
    | none => false
    | some perm =>
      let ok : Bool := decide (ability ∈ perm.Abilities)
      let okAll : Bool := decide (Ability.All ∈ perm.Abilities)
      let okSkip : Bool := decide (Ability.Skip ∈ perm.Abilities)
      if !ok && !okAll && !okSkip then false
      else if okAll || okSkip then true
      else
        match ability with
        | .All | .Skip => true
        | .Read | .Create | .Update | .Delete =>
          match compare with
          | none => false
          | some f => f ()
        | .None => false

/-- Go `buildAbility`: parse every ability string of a config entry into the
granted ability set (unparseable strings degrade to `None`). -/
def buildAbility (abilities : List GoStr) : Finset Ability :=
  (abilities.map StringToAbility).toFinset

/-- Disk-format permission entry (`DiskPermission`). -/
structure DiskPermission where
  Abilities : List GoStr
  Routes : List GoStr
  Resource : GoStr
deriving DecidableEq

/-- Disk-format role (`DiskRole`): its permission entries, listed in the
(unspecified) Go map iteration order. -/
abbrev DiskRole := List (GoStr × DiskPermission)

/-- Disk-format role set (`DiskRoles`), in iteration order. -/
abbrev DiskRoles := List (GoStr × DiskRole)

/-- The compiled role set: a Go map from role name to `Role`. -/
abbrev Roles := GoStr → Option Role

/-- The `Permission` compiled from one disk entry:
`Permission\x7bAbilities: buildAbility(p.Abilities), Resource: p.Resource\x7d`. -/
def compilePermission (p : DiskPermission) : Permission :=
  { Abilities := buildAbility p.Abilities, Resource := p.Resource }

/-- The synthetic fan-out key `fmt.Sprintf("%s_%s", j, route)`. -/
def routeKey (j route : GoStr) : GoStr := j ++ '_' :: route

/-- A Go map write `r[k] = v` on a role map. -/
def insertPermission (r : Role) (k : GoStr) (v : Permission) : Role :=
  fun s => if s = k then some v else r s

/-- The inner route loop of `buildRole`: write the fan-out key of every
declared route. -/
def addRoutes (j : GoStr) (per : Permission) (r : Role) (routes : List GoStr) : Role :=
  routes.foldl (fun acc route => insertPermission acc (routeKey j route) per) r

/-- One iteration of the permission loop of `buildRole`: fan out the routes and
then write the base key `j`. -/
def buildRoleEntry (r : Role) (j : GoStr) (p : DiskPermission) : Role :=
  insertPermission (addRoutes j (compilePermission p) r p.Routes) j (compilePermission p)

/-- Go `buildRole`, restricted to one role: compile every disk permission
entry, in iteration order, starting from an empty map. -/
def buildRole (d : DiskRole) : Role :=
  d.foldl (fun acc e => buildRoleEntry acc e.1 e.2) (fun _ => none)

/-- Go `Config` (also the body of `Roles.UnmarshalYAML`): compile every role
of the disk representation. -/
def Config (c : DiskRoles) : Roles :=
  c.foldl (fun acc e => fun s => if s = e.1 then some (buildRole e.2) else acc s)
    (fun _ => none)

/-- The predicate `writesKey j p K` holds when compiling the disk entry `(j, p)` writes the
role-map key `K`: either `K` is the base name `j` or `K` is the fan-out key of
one of the routes of `p`. -/
def writesKey (j : GoStr) (p : DiskPermission) (K : GoStr) : Prop :=
  K = j ∨ ∃ route ∈ p.Routes, K = routeKey j route

instance (j : GoStr) (p : DiskPermission) (K : GoStr) : Decidable (writesKey j p K) := by
  unfold writesKey
  infer_instance

/-- The scan loop of Go `strings.ReplaceAll` (non-overlapping, left to
right).  The `Nat` argument is fuel bounding the number of iterations; every
iteration consumes at least one character, so `s.length` fuel is enough. -/
def replaceAllAux (pat rep : GoStr) : Nat → GoStr → GoStr
  | _, [] => []
  | 0, s => s
  | fuel + 1, c :: rest =>
    if pat ≠ [] ∧ pat.isPrefixOf (c :: rest) then
      rep ++ replaceAllAux pat rep fuel (List.drop (pat.length - 1) rest)
    else
      c :: replaceAllAux pat rep fuel rest

/-- Go `strings.ReplaceAll s pat rep` for a nonempty pattern (the call sites
below skip empty patterns, as the source does). -/
def goReplaceAll (s pat rep : GoStr) : GoStr := replaceAllAux pat rep s.length s

/-- The route-parameter removal loop of `PermissionFromPath`: delete every
occurrence of every nonempty captured parameter value. -/
def removeParams (p : GoStr) (values : List GoStr) : GoStr :=
  values.foldl (fun acc v => if v = [] then acc else goReplaceAll acc v []) p

/-- Go `PermissionFromPath`, on the request path and the router-captured
parameter values.  `none` models the panics of the unguarded slicing:
`p[:3]` on a path shorter than three bytes, and `p[len(p)-1:]` or `p[1:]`
on an empty string. -/
def PermissionFromPath (path : GoStr) (values : List GoStr) : Option GoStr :=
  if path = gostr "/" then some (gostr "index")
  else if path.length < 3 then none
  else
    let p0 := if path.take 3 = gostr "/v1" then path.drop 3 else path
    let p1 := removeParams p0 values
    if p1 = [] then none
    else
      let p2 := if p1.getLast? = some '/' then p1.dropLast else p1
      if p2 = [] then none
      else some (goReplaceAll (p2.drop 1) (gostr "/") (gostr "_"))

/-! Fixtures for the witnesses. -/

/-- An example context value. -/
def ctx0 : Context := ⟨[(gostr "request-id", gostr "1")]⟩

/-- A second, different context value. -/
def ctx1 : Context := ⟨[]⟩

/-- Permission compiled from config ability strings `["all"]`. -/
def permAll : Permission := ⟨buildAbility [gostr "all"], gostr "user"⟩

/-- Permission compiled from config ability strings `["skip"]`. -/
def permSkip : Permission := ⟨buildAbility [gostr "skip"], gostr "user"⟩

/-- Permission compiled from config ability strings `["read"]`. -/
def permRead : Permission := ⟨buildAbility [gostr "read"], gostr "user"⟩

/-- Permission compiled from the unrecognized config ability string
`["frobnicate"]`: its ability set is the denial sentinel singleton. -/
def permBogus : Permission := ⟨buildAbility [gostr "frobnicate"], gostr "user"⟩

/-- A one-permission role mapping "users" to the given permission. -/
def mkRole (perm : Permission) : Role :=
  fun s => if s = gostr "users" then some perm else none

/-! Theorems on the decision engine `Can`. -/

/-- Claim C1: for every role in which the ability set of the looked-up permission
contains `All` or contains `Skip`, `Can` returns `true` for every requested
ability and for every predicate — including a nil predicate and a predicate
returning `false` — so the predicate is never consulted in this case. -/
theorem can_all_skip_overrides (ctx : Context) (rolemap : Role) (permission : GoStr)
    (perm : Permission) (hlook : rolemap permission = some perm)
    (hgrant : Ability.All ∈ perm.Abilities ∨ Ability.Skip ∈ perm.Abilities)
    (ability : Ability) (compare : Option (Unit → Bool)) :
    Can ctx (some rolemap) permission ability compare = true := by
  rcases hgrant with h | h <;> simp [Can, hlook, h]

/-- Witness for `can_all_skip_overrides`: an `all` role authorizes `Delete`
against a false predicate, and a `skip` role authorizes `Read` against a nil
predicate. -/
theorem can_all_skip_overrides_witness :
    Can ctx0 (some (mkRole permAll)) (gostr "users") Ability.Delete (some (fun _ => false)) = true ∧
    Can ctx0 (some (mkRole permSkip)) (gostr "users") Ability.Read none = true :=
  ⟨can_all_skip_overrides ctx0 (mkRole permAll) (gostr "users") permAll (by decide)
      (Or.inl (by decide)) Ability.Delete (some (fun _ => false)),
   can_all_skip_overrides ctx0 (mkRole permSkip) (gostr "users") permSkip (by decide)
      (Or.inr (by decide)) Ability.Read none⟩

/-- Claim C2: `Can` raises no error and fails closed: it returns `false`
whenever the role is nil, or the permission name is absent, or none of the
three memberships (requested ability, `All`, `Skip`) hold. -/
theorem can_fail_closed :
    (∀ (ctx : Context) (permission : GoStr) (ability : Ability)
        (compare : Option (Unit → Bool)),
      Can ctx none permission ability compare = false) ∧
    (∀ (ctx : Context) (rolemap : Role) (permission : GoStr) (ability : Ability)
        (compare : Option (Unit → Bool)), rolemap permission = none →
      Can ctx (some rolemap) permission ability compare = false) ∧
    (∀ (ctx : Context) (rolemap : Role) (permission : GoStr) (perm : Permission)
        (ability : Ability) (compare : Option (Unit → Bool)),
      rolemap permission = some perm →
      ability ∉ perm.Abilities → Ability.All ∉ perm.Abilities →
      Ability.Skip ∉ perm.Abilities →
      Can ctx (some rolemap) permission ability compare = false) := by
  refine ⟨fun _ _ _ _ => rfl, fun ctx rolemap p a cmp h => by simp [Can, h], ?_⟩
  intro ctx rolemap p perm a cmp hlook h1 h2 h3
  simp [Can, hlook, h1, h2, h3]

/-- Witness for `can_fail_closed`: a nil role, an unknown permission name,
and an ungranted ability are all denied. -/
theorem can_fail_closed_witness :
    Can ctx0 none (gostr "users") Ability.Read (some (fun _ => true)) = false ∧
    Can ctx0 (some (mkRole permRead)) (gostr "unknown") Ability.Read (some (fun _ => true)) = false ∧
    Can ctx0 (some (mkRole permRead)) (gostr "users") Ability.Create (some (fun _ => true)) = false :=
  ⟨can_fail_closed.1 ctx0 (gostr "users") Ability.Read (some (fun _ => true)),
   can_fail_closed.2.1 ctx0 (mkRole permRead) (gostr "unknown") Ability.Read
      (some (fun _ => true)) (by decide),
   can_fail_closed.2.2 ctx0 (mkRole permRead) (gostr "users") permRead Ability.Create
      (some (fun _ => true)) (by decide) (by decide) (by decide) (by decide)⟩

/-- Claim C3: when the looked-up permission grants the requested concrete
ability but neither `All` nor `Skip`, `Can` returns `false` on a nil
predicate and otherwise exactly the result of the predicate. -/
theorem can_exact_defers_to_predicate (ctx : Context) (rolemap : Role) (permission : GoStr)
    (perm : Permission) (ability : Ability) (hlook : rolemap permission = some perm)
    (hex : ability ∈ perm.Abilities)
    (hAll : Ability.All ∉ perm.Abilities) (hSkip : Ability.Skip ∉ perm.Abilities)
    (hconc : ability = Ability.Read ∨ ability = Ability.Create ∨
      ability = Ability.Update ∨ ability = Ability.Delete) :
    Can ctx (some rolemap) permission ability none = false ∧
    ∀ f : Unit → Bool, Can ctx (some rolemap) permission ability (some f) = f () := by
  rcases hconc with h | h | h | h <;> subst h <;>
    exact ⟨by simp [Can, hlook, hex, hAll, hSkip],
      fun f => by simp [Can, hlook, hex, hAll, hSkip]⟩

/-- Witness for `can_exact_defers_to_predicate`: a read-only role denies
`Read` on a nil predicate and otherwise returns the result of the predicate. -/
theorem can_exact_defers_to_predicate_witness :
    Can ctx0 (some (mkRole permRead)) (gostr "users") Ability.Read none = false ∧
    Can ctx0 (some (mkRole permRead)) (gostr "users") Ability.Read (some (fun _ => false)) = false :=
  ⟨(can_exact_defers_to_predicate ctx0 (mkRole permRead) (gostr "users") permRead Ability.Read
      (by decide) (by decide) (by decide) (by decide) (Or.inl rfl)).1,
   (can_exact_defers_to_predicate ctx0 (mkRole permRead) (gostr "users") permRead Ability.Read
      (by decide) (by decide) (by decide) (by decide) (Or.inl rfl)).2 (fun _ => false)⟩

/-- Claim C6: the denial sentinel is never granted: when the looked-up
permission holds neither `All` nor `Skip`, requesting `None` is denied for
every predicate, even when `None` is itself a member of the ability set (as
compiling an unrecognized ability string produces). -/
theorem can_none_never_granted (ctx : Context) (rolemap : Role) (permission : GoStr)
    (perm : Permission) (hlook : rolemap permission = some perm)
    (hAll : Ability.All ∉ perm.Abilities) (hSkip : Ability.Skip ∉ perm.Abilities)
    (compare : Option (Unit → Bool)) :
    Can ctx (some rolemap) permission Ability.None compare = false := by
  by_cases hn : Ability.None ∈ perm.Abilities <;> simp [Can, hlook, hAll, hSkip, hn]

/-- Witness for `can_none_never_granted`: a role compiled from the bogus
ability string "frobnicate" (whose set is exactly the `None` sentinel)
denies a request for `None` even against a true predicate. -/
theorem can_none_never_granted_witness :
    Can ctx0 (some (mkRole permBogus)) (gostr "users") Ability.None (some (fun _ => true)) = false ∧
    Ability.None ∈ permBogus.Abilities :=
  ⟨can_none_never_granted ctx0 (mkRole permBogus) (gostr "users") permBogus (by decide)
      (by decide) (by decide) (some (fun _ => true)),
   by decide⟩

/-- Claim C8: `Can` never inspects the context: its result is the same for
any two context arguments. -/
theorem can_context_independent (c1 c2 : Context) (role : Option Role) (permission : GoStr)
    (ability : Ability) (compare : Option (Unit → Bool)) :
    Can c1 role permission ability compare = Can c2 role permission ability compare := rfl

/-- Claim C9: requesting the denial sentinel can succeed: when the ability
set of the looked-up permission contains `All` or `Skip`, `Can` returns `true` even
for requested ability `None`. -/
theorem can_request_none_succeeds (ctx : Context) (rolemap : Role) (permission : GoStr)
    (perm : Permission) (hlook : rolemap permission = some perm)
    (hgrant : Ability.All ∈ perm.Abilities ∨ Ability.Skip ∈ perm.Abilities)
    (compare : Option (Unit → Bool)) :
    Can ctx (some rolemap) permission Ability.None compare = true := by
  rcases hgrant with h | h <;> simp [Can, hlook, h]

/-- Witness for `can_request_none_succeeds`: an `all` role authorizes a
request for `None` on a nil predicate. -/
theorem can_request_none_succeeds_witness :
    Can ctx0 (some (mkRole permAll)) (gostr "users") Ability.None none = true :=
  can_request_none_succeeds ctx0 (mkRole permAll) (gostr "users") permAll (by decide)
    (Or.inl (by decide)) none

/-! Theorems on the ability vocabulary. -/

lemma char_toNat_ofNat_of_valid {n : Nat} (h : n.isValidChar) : (Char.ofNat n).toNat = n := by
  rw [Char.ofNat, dif_pos h]
  rfl

lemma toLower_eq (c : Char) :
    c.toLower = if c.toNat ≥ 65 ∧ c.toNat ≤ 90 then Char.ofNat (c.toNat + 32) else c := rfl

/-- ASCII lowercasing is idempotent: lowering an upper-case letter lands
outside the upper-case range. -/
lemma toLower_toLower (c : Char) : c.toLower.toLower = c.toLower := by
  by_cases h : c.toNat ≥ 65 ∧ c.toNat ≤ 90
  · have h1 : c.toLower = Char.ofNat (c.toNat + 32) := by rw [toLower_eq, if_pos h]
    have hval : (c.toNat + 32).isValidChar := Or.inl (by omega)
    rw [h1, toLower_eq, char_toNat_ofNat_of_valid hval, if_neg (by omega)]
  · have h1 : c.toLower = c := by rw [toLower_eq, if_neg h]
    rw [h1]
    exact h1

lemma strToLower_idem (s : GoStr) : strToLower (strToLower s) = strToLower s := by
  induction s with
  | nil => rfl
  | cons c cs ih =>
    simp only [strToLower, List.map_cons] at ih ⊢
    rw [toLower_toLower, ih]

/-- Claim C7: ability string conversion round-trips on all seven enumeration
values, is insensitive to the case of the input (the result on a string equals
the result on its lowercase form), and maps every string matching none of
the six canonical names to `None`. -/
theorem stringToAbility_roundtrip_ci :
    (∀ a : Ability, StringToAbility (abilityString a) = a) ∧
    (∀ s : GoStr, StringToAbility s = StringToAbility (strToLower s)) ∧
    (∀ s : GoStr, strToLower s ≠ gostr "all" → strToLower s ≠ gostr "read" →
      strToLower s ≠ gostr "create" → strToLower s ≠ gostr "update" →
      strToLower s ≠ gostr "delete" → strToLower s ≠ gostr "skip" →
      StringToAbility s = Ability.None) := by
  refine ⟨fun a => by cases a <;> decide, fun s => ?_, fun s h1 h2 h3 h4 h5 h6 => ?_⟩
  · simp only [StringToAbility, strToLower_idem]
  · simp only [StringToAbility, if_neg h1, if_neg h2, if_neg h3, if_neg h4, if_neg h5, if_neg h6]

/-- Witness for `stringToAbility_roundtrip_ci`: "bogus" matches no canonical
name and parses to the denial sentinel. -/
theorem stringToAbility_roundtrip_ci_witness :
    StringToAbility (gostr "bogus") = Ability.None :=
  stringToAbility_roundtrip_ci.2.2 (gostr "bogus") (by decide) (by decide) (by decide)
    (by decide) (by decide) (by decide)

/-! Theorems on the config compiler. -/

lemma addRoutes_apply (j : GoStr) (per : Permission) (routes : List GoStr) (r : Role)
    (K : GoStr) :
    addRoutes j per r routes K =
      if ∃ route ∈ routes, K = routeKey j route then some per else r K := by
  induction routes generalizing r with
  | nil => simp [addRoutes]
  | cons a as ih =>
    have hstep : addRoutes j per r (a :: as) = addRoutes j per (insertPermission r (routeKey j a) per) as := rfl
    rw [hstep, ih]
    by_cases hmem : ∃ route ∈ as, K = routeKey j route
    · rw [if_pos hmem, if_pos ⟨hmem.choose, List.mem_cons_of_mem a hmem.choose_spec.1, hmem.choose_spec.2⟩]
    · rw [if_neg hmem]
      unfold insertPermission
      by_cases ha : K = routeKey j a
      · rw [if_pos ha, if_pos ⟨a, List.mem_cons_self a as, ha⟩]
      · rw [if_neg ha, if_neg ?_]
        intro hcon
        rcases hcon with ⟨route, hroute, hKr⟩
        rcases List.mem_cons.mp hroute with heq | hmem2
        · exact ha (heq ▸ hKr)
        · exact hmem ⟨route, hmem2, hKr⟩

lemma buildRoleEntry_apply_hit (r : Role) (j : GoStr) (p : DiskPermission) (K : GoStr)
    (h : writesKey j p K) : buildRoleEntry r j p K = some (compilePermission p) := by
  unfold buildRoleEntry insertPermission
  by_cases hj : K = j
  · rw [if_pos hj]
  · rcases h with h | h
    · exact absurd h hj
    · rw [if_neg hj, addRoutes_apply, if_pos h]

lemma buildRoleEntry_apply_miss (r : Role) (j : GoStr) (p : DiskPermission) (K : GoStr)
    (h : ¬ writesKey j p K) : buildRoleEntry r j p K = r K := by
  unfold writesKey at h
  push_neg at h
  unfold buildRoleEntry insertPermission
  rw [if_neg h.1, addRoutes_apply, if_neg ?_]
  intro hcon
  rcases hcon with ⟨route, hroute, hKr⟩
  exact h.2 route hroute hKr

lemma buildRole_foldl_miss (l : DiskRole) (r : Role) (K : GoStr)
    (h : ∀ e ∈ l, ¬ writesKey e.1 e.2 K) :
    l.foldl (fun acc e => buildRoleEntry acc e.1 e.2) r K = r K := by
  induction l generalizing r with
  | nil => rfl
  | cons a as ih =>
    rw [List.foldl_cons, ih _ (fun e he => h e (List.mem_cons_of_mem a he)),
      buildRoleEntry_apply_miss _ _ _ _ (h a (List.mem_cons_self a as))]

/-- Claim C5 counterexample: a disk role where the declared name of the
second entry collides with the route fan-out key of the first entry: the
claimed entry for that fan-out key is overwritten by the later entry, so the
compiled role does not contain the claimed permission under that key. -/
theorem buildRole_fanout_cex :
    (gostr "a", (⟨[gostr "read"], [gostr "b"], gostr "r1"⟩ : DiskPermission)) ∈
      ([(gostr "a", ⟨[gostr "read"], [gostr "b"], gostr "r1"⟩),
        (gostr "a_b", ⟨[gostr "create"], [], gostr "r2"⟩)] : DiskRole) ∧
    buildRole
      [(gostr "a", ⟨[gostr "read"], [gostr "b"], gostr "r1"⟩),
       (gostr "a_b", ⟨[gostr "create"], [], gostr "r2"⟩)]
      (routeKey (gostr "a") (gostr "b")) ≠
      some (compilePermission ⟨[gostr "read"], [gostr "b"], gostr "r1"⟩) := by
  decide

/-- Claim C5 amended: for every disk-format role in which permission name `P`
declares routes, ability strings and a resource, the compiled role contains
the base entry `P` and every fan-out entry `P_ri`, all equal to the compiled
permission (parsed ability set, same resource) — provided no permission
entry compiled later writes that same key (later writes overwrite earlier
ones). -/
theorem buildRole_fanout_no_collision (d1 d2 : DiskRole) (P : GoStr) (dp : DiskPermission)
    (K : GoStr) (hK : writesKey P dp K)
    (hlater : ∀ e ∈ d2, ¬ writesKey e.1 e.2 K) :
    buildRole (d1 ++ (P, dp) :: d2) K = some (compilePermission dp) := by
  unfold buildRole
  rw [List.foldl_append, List.foldl_cons, buildRole_foldl_miss d2 _ K hlater,
    buildRoleEntry_apply_hit _ _ _ _ hK]

/-- Witness for `buildRole_fanout_no_collision`: the fan-out example of the
spec compiles `users` with route `42` into an entry under the key `users_42`. -/
theorem buildRole_fanout_no_collision_witness :
    buildRole [(gostr "users", ⟨[gostr "read"], [gostr "42"], gostr "user"⟩)]
      (gostr "users_42") =
      some (compilePermission ⟨[gostr "read"], [gostr "42"], gostr "user"⟩) :=
  buildRole_fanout_no_collision [] [] (gostr "users")
    ⟨[gostr "read"], [gostr "42"], gostr "user"⟩ (gostr "users_42")
    (by decide) (fun e he => absurd he (List.not_mem_nil e))

/-! Theorems on the request classifier. -/

/-- Claim C4 counterexample: the classifier does not reproduce the worked
examples of the spec: removing the captured value "42" from the path leaves an
empty segment, so `/v1/users/42/` yields "users_" (not "users") and
`/v1/users/42/comments` yields "users__comments" (not "users_comments"). -/
theorem permissionFromPath_examples_cex :
    PermissionFromPath (gostr "/v1/users/42/") [gostr "42"] ≠ some (gostr "users") ∧
    PermissionFromPath (gostr "/v1/users/42/comments") [gostr "42"] ≠
      some (gostr "users_comments") := by
  decide

/-- Claim C4 amended: the actual classifier results on the three examples:
"/" yields "index"; `/v1/users/42/` with captured value "42" yields
"users_" (the trailing slash is stripped only once); and
`/v1/users/42/comments` with captured value "42" yields "users__comments"
(the emptied path segment leaves a double underscore). -/
theorem permissionFromPath_examples_actual :
    PermissionFromPath (gostr "/") [] = some (gostr "index") ∧
    PermissionFromPath (gostr "/v1/users/42/") [gostr "42"] = some (gostr "users_") ∧
    PermissionFromPath (gostr "/v1/users/42/comments") [gostr "42"] =
      some (gostr "users__comments") := by
  decide

/-- Claim C10: the classifier is not total: every non-root path shorter than
three bytes (such as "/a") makes the unguarded slice `p[:3]` panic, and the
path "/v1" — which becomes the empty string after version-prefix stripping —
makes the unguarded slice `p[len(p)-1:]` panic; the model returns `none` at
exactly the panic sites. -/
theorem permissionFromPath_panics :
    (∀ (p : GoStr) (values : List GoStr), p ≠ gostr "/" → p.length < 3 →
      PermissionFromPath p values = none) ∧
    PermissionFromPath (gostr "/v1") [] = none ∧
    PermissionFromPath (gostr "/v1") [gostr "42"] = none := by
  refine ⟨?_, by decide, by decide⟩
  intro p values h1 h2
  unfold PermissionFromPath
  rw [if_neg h1, if_pos h2]

/-- Witness for `permissionFromPath_panics`: the two-byte path "/a" has no
result. -/
theorem permissionFromPath_panics_witness :
    PermissionFromPath (gostr "/a") [] = none :=
  permissionFromPath_panics.1 (gostr "/a") [] (by decide) (by decide)

end CanRBAC
